import Mathlib

/-!
Verification development for the DistributedFileSystem repository
(naming server, FIFO readers-writers lock, storage server).

Shallow embedding of the Go sources:
  * `src/unnamed/part_015` (naming: `pathToNames`, `Directory`, `walkPath`,
    `MakeDirectory`, `CreateFile`, `DeletePath`, `RegisterFiles`, ...)
  * `src/naming/lib/Handlers.go` (`deleteHandler`, `createFileHandler`,
    `lockHandler`, `registerStorageHandler`, ...)
  * `src/naming/lib/FIFORWMutex.go` (the `scheduler` goroutine)
  * `src/unnamed/part_006` (storage `FileSystem.ReadFile`)

Pointer-based mutation in the Go code is modelled by functional tree
rebuilding; storage servers are identified by a numeric id standing for
pointer identity; goroutine channels are modelled by a scheduler state
machine consuming an event trace.
-/

namespace DFS

/-- Path characters. Go strings are modelled as `List Char`. -/
abbrev Name := List Char

/-! ### Go `path.Clean`

`pathToNames` in `src/unnamed/part_015` starts with `pth = path.Clean(pth)`.
The definitions below port Go's `path.Clean` (stdlib `path/path.go`) to
`List Char`.  The output buffer `out` is kept in reverse order; `dd`
mirrors Go's `dotdot` marker.  `cleanLoop` carries fuel so that the
definition is structurally recursive and kernel-computable; the top-level
call passes more fuel than the input length, so the fuel never runs out
before the input does (every iteration consumes at least one input
character). -/

/-- Inner loop of the `..` case of Go `path.Clean`:
`for out.w > dotdot && out.index(out.w) != '/' { out.w-- }`.
`out` is the reversed buffer after the unconditional first `out.w--`;
`last` is the character most recently dropped. -/
def popLoop (dd : Nat) : Name → Char → Name
  | [], _ => []
  | c :: rest, last =>
    if dd < rest.length + 1 ∧ last ≠ '/' then popLoop dd rest c
    else c :: rest

/-- Main loop of Go `path.Clean` (`for r < n { switch { ... } }`).
`r` is the remaining input, `out` the reversed output buffer. -/
def cleanLoop (rooted : Bool) : Nat → Name → Name → Nat → Name
  | 0, _, out, _ => out
  | _ + 1, [], out, _ => out
  | fuel + 1, c :: rest, out, dd =>
    if c = '/' then
      -- empty path element
      cleanLoop rooted fuel rest out dd
    else if c = '.' ∧ (rest = [] ∨ rest.head? = some '/') then
      -- "." element
      cleanLoop rooted fuel rest out dd
    else if c = '.' ∧ rest.head? = some '.' ∧
        (rest.tail = [] ∨ rest.tail.head? = some '/') then
      -- ".." element
      if dd < out.length then
        -- can backtrack
        let out2 : Name :=
          match out with
          | [] => []
          | c0 :: o => popLoop dd o c0
        cleanLoop rooted fuel rest.tail out2 dd
      else if rooted = false then
        -- cannot backtrack, but not rooted, so append ".." element
        let o1 : Name := if 0 < out.length then '/' :: out else out
        let o2 : Name := '.' :: '.' :: o1
        cleanLoop rooted fuel rest.tail o2 o2.length
      else
        cleanLoop rooted fuel rest.tail out dd
    else
      -- real path element: add slash if needed, then copy the element
      let o1 : Name :=
        if (rooted = true ∧ out.length ≠ 1) ∨ (rooted = false ∧ out.length ≠ 0)
        then '/' :: out else out
      let seg := (c :: rest).takeWhile (fun ch => ch != '/')
      let r2 := (c :: rest).dropWhile (fun ch => ch != '/')
      cleanLoop rooted fuel r2 (seg.reverse ++ o1) dd

/-- Go `path.Clean`. Returns `"."` for the empty path; otherwise runs the
main loop and reverses the accumulated buffer (`"."` if it is empty). -/
def goClean (p : Name) : Name :=
  match p with
  | [] => ['.']
  | c :: rest =>
    let rooted : Bool := c = '/'
    let r0 : Name := if rooted then rest else c :: rest
    let out0 : Name := if rooted then ['/'] else []
    let dd0 : Nat := if rooted then 1 else 0
    let res := cleanLoop rooted (p.length + 1) r0 out0 dd0
    if res = [] then ['.'] else res.reverse

/-- Go `strings.Split(s, "/")`, fuel-based (the fuel is the input length,
which suffices since each round consumes the separator). -/
def splitSlashF : Nat → Name → List Name
  | 0, l => [l]
  | fuel + 1, l =>
    let seg := l.takeWhile (fun ch => ch != '/')
    let rest := l.dropWhile (fun ch => ch != '/')
    match rest with
    | [] => [seg]
    | _ :: rest2 => seg :: splitSlashF fuel rest2

/-- Go `strings.Split(s, "/")`. -/
def splitSlash (l : Name) : List Name := splitSlashF l.length l

/-- `pathToNames` from `src/unnamed/part_015`:
clean the path; reject (Go: return `nil`, here: `[]`) if it does not start
with `'/'`; the root path `"/"` yields `[""]`; otherwise split on `'/'`.
Go indexes `pth[0]` on the cleaned path, which is never empty. -/
def pathToNames (pth : Name) : List Name :=
  let c := goClean pth
  match c with
  | [] => []
  | ch :: _ =>
    if ch = '/' then
      if c = ['/'] then [([] : Name)] else splitSlash c
    else []

/-! ### Error kinds

`DFSException` values carry a kind string and a message; the message text
plays no role in control flow and is elided here. -/

/-- Exception kinds from `DFSException.go` (naming) and the storage
package's constants. -/
inductive DFSErr
  | illegalArgument
  | fileNotFound
  | illegalState
  | indexOutOfBounds
  | ioException
deriving DecidableEq, Repr

/-! ### Namespace tree (`src/unnamed/part_015`)

`StorageServerInfo` values are heap records compared by pointer in Go
(`storageServer == currServer`); `sid` stands for the pointer identity
(fresh per registration).  `FileInfo.lock` and `Directory.lock` and the
root's lock tables play no role in the claims settled here and are
elided; `rCount`/`storageServers` are kept. -/

/-- `StorageServerInfo` from `NamingServer.go`; `sid` models pointer
identity. -/
structure SSInfo where
  sid : Nat
  clientPort : Int
  commandPort : Int
deriving DecidableEq, Repr

/-- `FileInfo` from `src/unnamed/part_015` (lock and mutex elided). -/
structure FileT where
  fname : Name
  fpath : Name
  rCount : Int
  servers : List SSInfo
deriving DecidableEq, Repr

/-- `Directory` from `src/unnamed/part_015` (lock and lock tables
elided).  `DirT.node name subDirs subFiles`. -/
inductive DirT where
  | node (dname : Name) (subDirs : List DirT) (subFiles : List FileT)

/-- Directory name accessor. -/
def DirT.dname : DirT → Name
  | .node n _ _ => n

/-- Child directories accessor. -/
def DirT.subDirs : DirT → List DirT
  | .node _ ds _ => ds

/-- Child files accessor. -/
def DirT.subFiles : DirT → List FileT
  | .node _ _ fs => fs

/-- The Go loop `for _, dir := range curr.subDirectories { if dir.name == n
{ ... break } }`: first child directory with the given name. -/
def findDir : List DirT → Name → Option DirT
  | [], _ => none
  | c :: cs, n => if c.dname = n then some c else findDir cs n

/-- First child file with the given name. -/
def findFile : List FileT → Name → Option FileT
  | [], _ => none
  | f :: fs, n => if f.fname = n then some f else findFile fs n

/-- Replace the first child directory named `n` by `x` (models mutating
the found `*Directory` in place). -/
def setFirstDir : List DirT → Name → DirT → List DirT
  | [], _, _ => []
  | c :: cs, n, x => if c.dname = n then x :: cs else c :: setFirstDir cs n x

/-- The descending part of `walkPath`: follow child directories by name. -/
def walkSub (d : DirT) : List Name → Option DirT
  | [] => some d
  | n :: rest =>
    match findDir d.subDirs n with
    | some c => walkSub c rest
    | none => none

/-- `Directory.walkPath` from `src/unnamed/part_015`: the first name must
be the root marker `""`, then descend. -/
def walkPath (d : DirT) (names : List Name) : Option DirT :=
  match names with
  | [] => none
  | n0 :: rest => if n0 = ([] : Name) then walkSub d rest else none

/-- Rebuild the tree along a root-marked path, applying `f` to the final
directory (models mutation through the pointer `walkPath` returned).
Only called when the corresponding `walkPath` succeeded. -/
def updateSub (d : DirT) (names : List Name) (f : DirT → DirT) : DirT :=
  match names with
  | [] => f d
  | n :: rest =>
    match findDir d.subDirs n with
    | some c => DirT.node d.dname (setFirstDir d.subDirs n (updateSub c rest f)) d.subFiles
    | none => d

/-- `updateSub` with the leading root marker, mirroring `walkPath`. -/
def updateAlong (d : DirT) (names : List Name) (f : DirT → DirT) : DirT :=
  match names with
  | [] => d
  | n0 :: rest => if n0 = ([] : Name) then updateSub d rest f else d

/-- `Directory.MakeDirectory` from `src/unnamed/part_015`.
Result: (created?, error, new tree). -/
def MakeDirectory (d : DirT) (pth : Name) : Bool × Option DFSErr × DirT :=
  let names := pathToNames pth
  if names = [] then (false, some .illegalArgument, d)
  else if names.length = 1 then (false, none, d)
  else
    let parentNames := names.dropLast
    match walkPath d parentNames with
    | none => (false, some .fileNotFound, d)
    | some parent =>
      let newDirName := names.getLastD []
      let existed := (findDir parent.subDirs newDirName).isSome
                  || (findFile parent.subFiles newDirName).isSome
      if existed then (false, none, d)
      else
        (true, none,
          updateAlong d parentNames (fun p =>
            DirT.node p.dname (p.subDirs ++ [DirT.node newDirName [] []]) p.subFiles))

/-- `Directory.CreateFile` from `src/unnamed/part_015`.
Result: (created file or none, error, new tree).  The new file caches
`path.Clean(pth)` and gets the single replica `sv`. -/
def CreateFile (d : DirT) (pth : Name) (sv : SSInfo) :
    Option FileT × Option DFSErr × DirT :=
  let names := pathToNames pth
  if names = [] then (none, some .illegalArgument, d)
  else if names.length = 1 then (none, none, d)
  else
    let newFileName := names.getLastD []
    let parentNames := names.dropLast
    match walkPath d parentNames with
    | none => (none, some .fileNotFound, d)
    | some parent =>
      let conflict := (findDir parent.subDirs newFileName).isSome
                   || (findFile parent.subFiles newFileName).isSome
      if conflict then (none, none, d)
      else
        let newFile : FileT := ⟨newFileName, goClean pth, 0, [sv]⟩
        (some newFile, none,
          updateAlong d parentNames (fun p =>
            DirT.node p.dname p.subDirs (p.subFiles ++ [newFile])))

/-- The detached item `DeletePath` returns (`FSItem` in Go). -/
inductive FSItemT
  | dirItem (d : DirT)
  | fileItem (f : FileT)

/-- `Directory.DeletePath` from `src/unnamed/part_015`.
Result: (detached item, error, new tree).  Mirrors the Go `index`
variable, which the file-search loop overwrites after the directory-search
loop (harmless when sibling names are unique). -/
def DeletePath (d : DirT) (pth : Name) :
    Option FSItemT × Option DFSErr × DirT :=
  let names := pathToNames pth
  if names = [] then (none, some .illegalArgument, d)
  else if names.length = 1 then (none, none, d)
  else
    let deleted := names.getLastD []
    let parentNames := names.dropLast
    match walkPath d parentNames with
    | none => (none, some .fileNotFound, d)
    | some parent =>
      let dIdx := parent.subDirs.findIdx? (fun c => c.dname = deleted)
      let fIdx := parent.subFiles.findIdx? (fun f => f.fname = deleted)
      match dIdx, fIdx with
      | none, none => (none, some .fileNotFound, d)
      | some di, fo =>
        let index := fo.getD di
        ((parent.subDirs.get? di).map .dirItem, none,
          updateAlong d parentNames (fun p =>
            DirT.node p.dname (p.subDirs.eraseIdx index) p.subFiles))
      | none, some fi =>
        ((parent.subFiles.get? fi).map .fileItem, none,
          updateAlong d parentNames (fun p =>
            DirT.node p.dname p.subDirs (p.subFiles.eraseIdx fi)))

/-- `strings.Join(names, "/")`: used by `Directory.GetPath`, which climbs
the parent pointers from the detached directory to the root, collecting
exactly the names `walkPath` matched, and joins them with `"/"`. -/
def joinSlash : List Name → Name
  | [] => []
  | [n] => n
  | n :: rest => n ++ '/' :: joinSlash rest

/-- One entry of `Directory.RegisterFiles`: walk/create the intermediate
directories `mids`, then add the file `fileName` if its name is free.
Created intermediate directories persist even when a later step fails.
Result: (new subtree, per-entry success). -/
def ensureAndAdd (d : DirT) (mids : List Name) (fileName fpath : Name)
    (sv : SSInfo) : DirT × Bool :=
  match mids with
  | [] =>
    let conflict := (findDir d.subDirs fileName).isSome
                 || (findFile d.subFiles fileName).isSome
    if conflict then (d, false)
    else (DirT.node d.dname d.subDirs (d.subFiles ++ [⟨fileName, fpath, 0, [sv]⟩]), true)
  | m :: rest =>
    match findDir d.subDirs m with
    | some c =>
      let r := ensureAndAdd c rest fileName fpath sv
      (DirT.node d.dname (setFirstDir d.subDirs m r.1) d.subFiles, r.2)
    | none =>
      if (findFile d.subFiles m).isSome then (d, false)
      else
        let r := ensureAndAdd (DirT.node m [] []) rest fileName fpath sv
        (DirT.node d.dname (d.subDirs ++ [r.1]) d.subFiles, r.2)

/-- One loop iteration of `RegisterFiles` for path `pth`: invalid paths
report `false`; the root entry is silently accepted (`true`); otherwise
strip the root marker and run `ensureAndAdd`. -/
def registerOne (d : DirT) (pth : Name) (sv : SSInfo) : DirT × Bool :=
  let names := pathToNames pth
  if names = [] then (d, false)
  else if names.length = 1 then (d, true)
  else
    let names2 := names.drop 1
    let fileName := names2.getLastD []
    let mids := names2.dropLast
    ensureAndAdd d mids fileName (goClean pth) sv

/-- `Directory.RegisterFiles` from `src/unnamed/part_015`: process the
paths left to right against the partially updated tree, collecting the
per-entry success booleans in order.  (The Go method holds the root lock
exclusively for the whole loop.) -/
def RegisterFiles (d : DirT) (pths : List Name) (sv : SSInfo) :
    DirT × List Bool :=
  match pths with
  | [] => (d, [])
  | p :: ps =>
    let r1 := registerOne d p sv
    let r2 := RegisterFiles r1.1 ps sv
    (r2.1, r1.2 :: r2.2)

/-! ### Naming-server handlers (`src/naming/lib/Handlers.go`)

HTTP transport is elided.  A handler result is the status code, the JSON
body, the new server state, and the list of storage-server commands the
handler dispatched *and awaited* (`wg.Wait()` precedes the return in the
Go code, so the response is produced only after every listed command has
completed). -/

/-- Commands sent from the naming server to storage servers
(`src/naming/lib/Commands.go`). -/
inductive Cmd
  | delete (path : Name) (sv : SSInfo)
  | copy (path : Name) (dst src : SSInfo)
  | create (path : Name) (sv : SSInfo)
deriving DecidableEq, Repr

/-- JSON body of a handler response: `SuccessResponse` or an exception. -/
inductive HResp
  | success (b : Bool)
  | ex (e : DFSErr)
deriving DecidableEq, Repr

/-- The naming server's shared state: the namespace root and the list of
registered storage servers. -/
structure NamingState where
  root : DirT
  storageServers : List SSInfo

/-- `deleteHandler` from `src/naming/lib/Handlers.go`.  For a deleted
file, a delete command (with the file's cached path) per replica; for a
deleted directory, a delete command (with the directory's `GetPath()`,
i.e. the `"/"`-join of the walked names) per *registered* server.  All
commands are awaited (`wg.Wait()`) before the response is returned. -/
def deleteHandler (st : NamingState) (pth : Name) :
    Nat × HResp × NamingState × List Cmd :=
  match DeletePath st.root pth with
  | (_, some e, _) => (404, .ex e, st, [])
  | (none, none, _) => (200, .success false, st, [])
  | (some (.fileItem f), none, r) =>
    (200, .success true, ⟨r, st.storageServers⟩,
      f.servers.map (fun sv => Cmd.delete f.fpath sv))
  | (some (.dirItem _), none, r) =>
    (200, .success true, ⟨r, st.storageServers⟩,
      st.storageServers.map (fun sv => Cmd.delete (joinSlash (pathToNames pth)) sv))

/-- `createDirectoryHandler` from `src/naming/lib/Handlers.go`. -/
def createDirectoryHandler (st : NamingState) (pth : Name) :
    Nat × HResp × NamingState :=
  match MakeDirectory st.root pth with
  | (_, some e, _) => (404, .ex e, st)
  | (b, none, r) => (200, .success b, ⟨r, st.storageServers⟩)

/-- `createFileHandler` from `src/naming/lib/Handlers.go`.  With no
registered storage server it returns 409 `IllegalState` before looking at
the path; otherwise it allocates the server at `rand.Intn(len(...))`
(modelled by `allocIdx`), calls `CreateFile`, and on success dispatches a
create command to the file's first replica. -/
def createFileHandler (st : NamingState) (pth : Name) (allocIdx : Nat) :
    Nat × HResp × NamingState × List Cmd :=
  if st.storageServers.length = 0 then (409, .ex .illegalState, st, [])
  else
    let sv := st.storageServers.getD allocIdx ⟨0, 0, 0⟩
    match CreateFile st.root pth sv with
    | (_, some e, _) => (404, .ex e, st, [])
    | (some f, none, r) =>
      (200, .success true, ⟨r, st.storageServers⟩,
        [Cmd.create f.fpath (f.servers.getD 0 ⟨0, 0, 0⟩)])
    | (none, none, r) => (200, .success false, ⟨r, st.storageServers⟩, [])

/-- The inner loop of the shared-lock branch: `for _, currServer := range
file.storageServers { if storageServer == currServer { exists = true;
break } }` (pointer equality modelled by record equality). -/
def existsIn : List SSInfo → SSInfo → Bool
  | [], _ => false
  | c :: cs, sv => if sv = c then true else existsIn cs sv

/-- The replication block of `lockHandler` from
`src/naming/lib/Handlers.go` (lines 112-158), entered when the locked
item is a file.  `exclusive`: set `rCount = 0`, dispatch and await a
delete to every replica except the first, and leave `storageServers`
untouched.  Shared: `rCount++`; at 20, subtract 20 and, if some
registered server does not hold the file, copy to a random such server
(`dstIdx` models `rand.Intn` over the candidates, `srcIdx` over the
replicas); append the destination iff the copy command succeeded
(`copyOk`). -/
def lockHandlerReplication (registry : List SSInfo) (f : FileT)
    (exclusive : Bool) (dstIdx srcIdx : Nat) (copyOk : Bool) :
    FileT × List Cmd :=
  if exclusive then
    (⟨f.fname, f.fpath, 0, f.servers⟩,
      (f.servers.drop 1).map (fun sv => Cmd.delete f.fpath sv))
  else
    let r := f.rCount + 1
    if 20 ≤ r then
      let r2 := r - 20
      let candidates := registry.filter (fun sv => !existsIn f.servers sv)
      if 0 < candidates.length then
        let dst := candidates.getD dstIdx ⟨0, 0, 0⟩
        let src := f.servers.getD srcIdx ⟨0, 0, 0⟩
        if copyOk then
          (⟨f.fname, f.fpath, r2, f.servers ++ [dst]⟩, [Cmd.copy f.fpath dst src])
        else
          (⟨f.fname, f.fpath, r2, f.servers⟩, [Cmd.copy f.fpath dst src])
      else (⟨f.fname, f.fpath, r2, f.servers⟩, [])
    else (⟨f.fname, f.fpath, r, f.servers⟩, [])

/-- The loop `for i := range success { if !success[i] { append(files[i]) } }`
from `registerStorageHandler`. -/
def collectFailed : List Name → List Bool → List Name
  | _, [] => []
  | [], _ :: _ => []
  | p :: ps, b :: bs => if b then collectFailed ps bs else p :: collectFailed ps bs

/-- Response of `/register`: HTTP 409 with an exception, or the list of
files the storage server must delete. -/
inductive RegResp
  | ex (e : DFSErr)
  | files (fs : List Name)
deriving DecidableEq, Repr

/-- `registerStorageHandler` from `src/naming/lib/Handlers.go`.  409
`IllegalState` iff some registered server matches on both ports;
otherwise append a fresh record (`newId` models the new pointer), run
`RegisterFiles`, and return the input paths whose entry failed. -/
def registerStorageHandler (st : NamingState) (clientPort commandPort : Int)
    (files : List Name) (newId : Nat) : Nat × RegResp × NamingState :=
  if st.storageServers.any
      (fun sv => sv.clientPort == clientPort && sv.commandPort == commandPort) then
    (409, .ex .illegalState, st)
  else
    let sv : SSInfo := ⟨newId, clientPort, commandPort⟩
    let r := RegisterFiles st.root files sv
    (200, .files (collectFailed files r.2),
      ⟨r.1, st.storageServers ++ [sv]⟩)

/-! ### FIFO readers-writers lock (`src/naming/lib/FIFORWMutex.go`)

The `scheduler` goroutine serializes all lock traffic: it receives
requests and releases over channels and answers a request by sending on
its `granted` channel.  It is modelled as a state machine consuming a
trace of events; each step returns the ids granted by that step, in
order.  After `quit` the Go loop breaks and the goroutine ends, so later
channel operations block forever: modelled by `stopped`, in which state
events are never received (no state change, no grants). -/

/-- Scheduler events: the five `select` cases.  `gid` identifies the
requester's `granted` channel. -/
inductive SchedEvent
  | rlock (gid : Nat)
  | wlock (gid : Nat)
  | runlock
  | wunlock
  | quit
deriving DecidableEq, Repr

/-- Scheduler state: the FIFO waiter queue (`readonly`, channel id),
`nReading`, `writing`, and whether the loop has exited. -/
structure SchedState where
  queue : List (Bool × Nat)
  nReading : Int
  writing : Bool
  stopped : Bool
deriving DecidableEq, Repr

/-- Initial scheduler state (fresh mutex). -/
def initSched : SchedState := ⟨[], 0, false, false⟩

/-- The `wUnlock` drain loop: `for !queue.Empty()` grant consecutive
readers at the head, stopping before the first writer.
Returns (remaining queue, new `nReading`, granted ids in order). -/
def drainReaders : List (Bool × Nat) → Int → List (Bool × Nat) × Int × List Nat
  | [], n => ([], n, [])
  | (ro, gid) :: rest, n =>
    if ro then
      let r := drainReaders rest (n + 1)
      (r.1, r.2.1, gid :: r.2.2)
    else ((ro, gid) :: rest, n, [])

/-- One iteration of the `scheduler` loop on one received event.
Returns the new state and the ids granted by this iteration, in order. -/
def schedulerStep (s : SchedState) (e : SchedEvent) : SchedState × List Nat :=
  if s.stopped then (s, [])
  else
    match e with
    | .rlock gid =>
      if s.queue = [] ∧ s.writing = false then
        -- can read immediately without queuing
        ({ s with nReading := s.nReading + 1 }, [gid])
      else ({ s with queue := s.queue ++ [(true, gid)] }, [])
    | .wlock gid =>
      if s.queue = [] ∧ s.nReading = 0 ∧ s.writing = false then
        -- can write immediately without queuing
        ({ s with writing := true }, [gid])
      else ({ s with queue := s.queue ++ [(false, gid)] }, [])
    | .runlock =>
      let n := s.nReading - 1
      if n = 0 ∧ s.queue ≠ [] then
        -- grant lock to the next request (the code expects a writer here)
        match s.queue with
        | [] => ({ s with nReading := n }, [])
        | (_, gid) :: rest =>
          ({ s with nReading := n, queue := rest, writing := true }, [gid])
      else ({ s with nReading := n }, [])
    | .wunlock =>
      let s1 := { s with writing := false }
      let step1 : SchedState × List Nat :=
        match s1.queue with
        | [] => (s1, [])
        | (ro, gid) :: rest =>
          if ro then ({ s1 with queue := rest, nReading := s1.nReading + 1 }, [gid])
          else ({ s1 with queue := rest, writing := true }, [gid])
      let s2 := step1.1
      if 0 < s2.nReading then
        -- try to grant as many rlocks as possible
        let r := drainReaders s2.queue s2.nReading
        ({ s2 with queue := r.1, nReading := r.2.1 }, step1.2 ++ r.2.2)
      else step1
    | .quit => ({ s with stopped := true }, [])

/-- Run the scheduler over a trace of events, concatenating the granted
ids in order. -/
def schedulerRun (s : SchedState) : List SchedEvent → SchedState × List Nat
  | [] => (s, [])
  | e :: es =>
    let r1 := schedulerStep s e
    let r2 := schedulerRun r1.1 es
    (r2.1, r1.2 ++ r2.2)

/-- The ids of lock requests that actually reach the scheduler, in
arrival order: requests after a `quit` (or on a stopped scheduler) block
on the channel send and never arrive. -/
def arrivingIds : Bool → List SchedEvent → List Nat
  | _, [] => []
  | true, _ :: _ => []
  | false, e :: es =>
    match e with
    | .rlock gid => gid :: arrivingIds false es
    | .wlock gid => gid :: arrivingIds false es
    | .quit => []
    | _ => arrivingIds false es

/-- Observable outcome of one `RLock()`/`Lock()` call within a trace:
the caller is unblocked iff the scheduler sent on its `granted` channel.
The Go implementation has no error result at all, so `destroyedErr`
(the outcome §4.1 of the spec prescribes after `Destroy()`) is never
produced; a never-granted caller stays blocked. -/
inductive LockOutcome
  | granted
  | destroyedErr
  | blocked
deriving DecidableEq, Repr

/-- Outcome of the request with channel id `gid` after running `evs`. -/
def lockOutcome (evs : List SchedEvent) (gid : Nat) : LockOutcome :=
  if gid ∈ (schedulerRun initSched evs).2 then .granted else .blocked

/-! ### Storage server `ReadFile` (`src/unnamed/part_006`)

`FileSystem.ReadFile(path, offset, length)` for an existing regular file
whose bytes are `contents` (the `checkFileExist` stat and the final
base64 encoding are elided: the encoding is applied to exactly the
returned buffer).  `offset` and `length` are Go `int64` values, so the
sum in the bounds check `offset+length > fileInfo.Size()` wraps at
`2^63`; when the check passes, `make([]byte, length)` panics if `length`
exceeds the runtime's maximum allocation (platform-specific, hence the
`maxAlloc` parameter), and otherwise `file.ReadAt(buffer, offset)` reads
what the file holds from `offset`, tolerates `io.EOF`, and leaves the
rest of the zero-initialized buffer untouched. -/

/-- Two's-complement wrap-around of a Go `int64` arithmetic result. -/
def wrap64 (x : Int) : Int := (x + 2 ^ 63) % 2 ^ 64 - 2 ^ 63

/-- Outcome of a `ReadFile` call: the successful buffer, a
`DFSException`, or a runtime panic raised by `make`. -/
inductive ReadOutcome
  | ok (data : List Nat)
  | err (e : DFSErr)
  | panicked
deriving DecidableEq, Repr

/-- `FileSystem.ReadFile` from `src/unnamed/part_006` (see the section
comment above for the elisions and the `maxAlloc` parameter). -/
def ReadFile (maxAlloc : Nat) (contents : List Nat) (offset length : Int) :
    ReadOutcome :=
  if offset < 0 ∨ length < 0 ∨ (contents.length : Int) < wrap64 (offset + length) then
    .err .indexOutOfBounds
  else if (maxAlloc : Int) < length then .panicked
  else
    let part := (contents.drop offset.toNat).take length.toNat
    .ok (part ++ List.replicate (length.toNat - part.length) 0)

/-! ### Auxiliary observation functions (not themselves source code) -/

/-- Ids contributed to the arrival order by one event. -/
def eventArrival : SchedEvent → List Nat
  | .rlock gid => [gid]
  | .wlock gid => [gid]
  | _ => []

/-- Whether an event is the `quit` signal. -/
def isQuit : SchedEvent → Bool
  | .quit => true
  | _ => false

/-- Whether a file named `fn` is reachable from `d` by descending through
the (first-matching) child directories `mids`.  Used to state invariants
of `RegisterFiles`. -/
def fileAtB (d : DirT) : List Name → Name → Bool
  | [], fn => (findFile d.subFiles fn).isSome
  | m :: rest, fn =>
    match findDir d.subDirs m with
    | some c => fileAtB c rest fn
    | none => false

/-- The intermediate directory names `RegisterFiles` walks for entry `p`
(`names[1 : len-1]` in the Go code). -/
def pathMids (p : Name) : List Name := ((pathToNames p).drop 1).dropLast

/-- The file name `RegisterFiles` uses for entry `p` (`names[len-1]`). -/
def pathFile (p : Name) : Name := ((pathToNames p).drop 1).getLastD []

/-! ### Concrete fixtures used by witnesses and counterexamples -/

/-- A registered storage server (pointer id 1, client port 101, command
port 102). -/
def srvA : SSInfo := ⟨1, 101, 102⟩

/-- A second registered storage server. -/
def srvB : SSInfo := ⟨2, 201, 202⟩

/-- The file `/f` held by both servers, as after a read burst. -/
def fileF : FileT := ⟨['f'], "/f".toList, 5, [srvA, srvB]⟩

/-- A namespace with the single file `/d/f` replicated on `srvA` only. -/
def treeDF : DirT :=
  DirT.node [] [DirT.node ['d'] [] [⟨['f'], "/d/f".toList, 0, [srvA]⟩]] []

/-- Naming state with `treeDF` and both servers registered. -/
def stDF : NamingState := ⟨treeDF, [srvA, srvB]⟩

/-- A namespace with the single file `/g` replicated on both servers. -/
def treeG : DirT := DirT.node [] [] [⟨['g'], "/g".toList, 0, [srvA, srvB]⟩]

/-- Naming state with `treeG` and both servers registered. -/
def stG : NamingState := ⟨treeG, [srvA, srvB]⟩

/-! ## Theorems -/

/-- The membership loop `existsIn` decides list membership. -/
theorem existsIn_iff_mem (l : List SSInfo) (sv : SSInfo) :
    existsIn l sv = true ↔ sv ∈ l := by
  induction l with
  | nil => simp [existsIn]
  | cons c cs ih => by_cases h : sv = c <;> simp [existsIn, h, ih]

/-- Claim C1 (failing-input evaluation).  An exclusive lock of `/f` with
replica list `[srvA, srvB]`: the code zeroes `rCount` and dispatches
(and awaits) a delete to every replica except the first, but leaves the
replica list `[srvA, srvB]` — it is never truncated to `[srvA]` as the
specification requires. -/
theorem C1_exclusive_lock_eval :
    lockHandlerReplication [srvA, srvB] fileF true 0 0 false
      = (⟨['f'], "/f".toList, 0, [srvA, srvB]⟩, [Cmd.delete ("/f".toList) srvB])
    ∧ (lockHandlerReplication [srvA, srvB] fileF true 0 0 false).1.servers
        ≠ [srvA] := by
  decide

/-- A value already in the `int64` range is unchanged by wrapping. -/
theorem wrap64_eq_self (x : Int) (h1 : -(2 ^ 63) ≤ x) (h2 : x < 2 ^ 63) :
    wrap64 x = x := by
  have h63 : (2 : Int) ^ 63 = 9223372036854775808 := by norm_num
  have h64 : (2 : Int) ^ 64 = 18446744073709551616 := by norm_num
  rw [wrap64, h63, h64]
  rw [h63] at h1 h2
  omega

/-- An `int64` sum at or above `2^63` wraps around to negative. -/
theorem wrap64_of_ge (x : Int) (h1 : 2 ^ 63 ≤ x) (h2 : x < 2 ^ 64) :
    wrap64 x = x - 2 ^ 64 := by
  have h63 : (2 : Int) ^ 63 = 9223372036854775808 := by norm_num
  have h64 : (2 : Int) ^ 64 = 18446744073709551616 := by norm_num
  rw [wrap64, h63, h64]
  rw [h63] at h1
  rw [h64] at h2
  omega

/-- Claim C7 (counterexample).  `ReadFile` with `length = -1` does not
return the bytes from the offset to the end of the file: the negative
length fails the bounds check and yields `IndexOutOfBounds`.  (The third
conjunct records the int64-wrap behavior: at `offset = 2^63 - 1`,
`length = 1` the wrapped sum passes the bounds check and the call
fabricates one zero byte past end-of-file.) -/
theorem C7_counterexample :
    ReadFile (2 ^ 48) [1, 2, 3] 0 (-1) = .err .indexOutOfBounds ∧
    ReadFile (2 ^ 48) [1, 2, 3] 0 (-1) ≠ .ok [1, 2, 3] ∧
    ReadFile (2 ^ 48) [1, 2, 3] (2 ^ 63 - 1) 1 = .ok [0] := by
  decide

/-- Claim C7 (amended).  For a stored file of size `S = contents.length`
(an `int64`, so `S < 2^63`, and assumed allocatable, `S ≤ maxAlloc`) and
`int64` arguments `offset, length < 2^63`: with `0 ≤ offset`,
`0 ≤ length` and `offset + length ≤ S`, `ReadFile` returns exactly the
`length` bytes starting at `offset`.  It returns `IndexOutOfBounds`
when `offset < 0`, when `length < 0` (in particular `length = -1` is
rejected rather than meaning read-to-end), and when `offset + length`
exceeds `S` *without wrapping* (`offset + length < 2^63`).  But when
`offset + length ≥ 2^63` the `int64` sum wraps negative and the bounds
check passes: the call then panics in `make([]byte, length)` if
`length` exceeds the allocation limit, and otherwise returns `length`
bytes — the file's bytes from `offset` zero-padded past end-of-file —
so the operation is not safe for every integer offset and length. -/
theorem C7_read_bounds (maxAlloc : Nat) (contents : List Nat)
    (offset length : Int)
    (hmax : contents.length ≤ maxAlloc)
    (hS : (contents.length : Int) < 2 ^ 63)
    (hoffR : offset < 2 ^ 63) (hlenR : length < 2 ^ 63) :
    (0 ≤ offset → 0 ≤ length → offset + length ≤ (contents.length : Int) →
      ReadFile maxAlloc contents offset length
          = .ok ((contents.drop offset.toNat).take length.toNat) ∧
      ((contents.drop offset.toNat).take length.toNat).length = length.toNat) ∧
    (offset < 0 ∨ length < 0 ∨
        ((contents.length : Int) < offset + length ∧ offset + length < 2 ^ 63) →
      ReadFile maxAlloc contents offset length = .err .indexOutOfBounds) ∧
    (0 ≤ offset → 0 ≤ length → 2 ^ 63 ≤ offset + length →
      ReadFile maxAlloc contents offset length
        = (if (maxAlloc : Int) < length then .panicked
           else .ok (((contents.drop offset.toNat).take length.toNat)
               ++ List.replicate
                    (length.toNat - ((contents.drop offset.toNat).take length.toNat).length)
                    0))) := by
  have hcast : (contents.length : Int) ≤ (maxAlloc : Int) := by
    exact_mod_cast hmax
  have hpos : (0 : Int) < 2 ^ 63 := by positivity
  refine ⟨?_, ?_, ?_⟩
  · intro h0 h1 h2
    have hw : wrap64 (offset + length) = offset + length :=
      wrap64_eq_self _ (by omega) (by omega)
    have hcond : ¬ (offset < 0 ∨ length < 0 ∨
        (contents.length : Int) < wrap64 (offset + length)) := by
      rw [hw]
      omega
    have hml : ¬ ((maxAlloc : Int) < length) := by omega
    have hplen : ((contents.drop offset.toNat).take length.toNat).length
        = length.toNat := by
      simp only [List.length_take, List.length_drop]
      omega
    refine ⟨?_, hplen⟩
    simp only [ReadFile]
    rw [if_neg hcond, if_neg hml]
    simp [hplen]
  · intro h
    rcases h with h | h | h
    · simp only [ReadFile]
      rw [if_pos (Or.inl h)]
    · simp only [ReadFile]
      rw [if_pos (Or.inr (Or.inl h))]
    · obtain ⟨hgt, hlt⟩ := h
      have h0 : (0 : Int) ≤ offset + length := by
        have : (0 : Int) ≤ (contents.length : Int) := Int.ofNat_nonneg _
        omega
      have hw : wrap64 (offset + length) = offset + length :=
        wrap64_eq_self _ (by omega) hlt
      simp only [ReadFile]
      rw [if_pos (Or.inr (Or.inr (by rw [hw]; exact hgt)))]
  · intro h0 h1 hge
    have hlt64 : offset + length < 2 ^ 64 := by
      have hpow : (2 : Int) ^ 64 = 2 ^ 63 + 2 ^ 63 := by ring
      omega
    have hw : wrap64 (offset + length) = offset + length - 2 ^ 64 :=
      wrap64_of_ge _ hge hlt64
    have hcond : ¬ (offset < 0 ∨ length < 0 ∨
        (contents.length : Int) < wrap64 (offset + length)) := by
      rw [hw]
      have : (0 : Int) ≤ (contents.length : Int) := Int.ofNat_nonneg _
      omega
    simp only [ReadFile]
    rw [if_neg hcond]

/-- Claim C7 (witness): an in-bounds read of two bytes at offset 1
succeeds exactly, and the wrapped call at `offset = length = 2^62`
passes the bounds check and panics in `make`. -/
theorem C7_witness :
    ReadFile (2 ^ 48) [1, 2, 3] 1 2 = .ok [2, 3] ∧
    ReadFile (2 ^ 48) [1, 2, 3] (2 ^ 62) (2 ^ 62) = .panicked := by
  constructor
  · have h := C7_read_bounds (2 ^ 48) [1, 2, 3] 1 2 (by norm_num)
      (by norm_num) (by norm_num) (by norm_num)
    exact (h.1 (by norm_num) (by norm_num) (by norm_num)).1.trans (by decide)
  · have h := C7_read_bounds (2 ^ 48) [1, 2, 3] (2 ^ 62) (2 ^ 62) (by norm_num)
      (by norm_num) (by norm_num) (by norm_num)
    have h3 := h.2.2 (by positivity) (by positivity) (by norm_num)
    rw [h3, if_pos (by norm_num)]

/-- Claim C8 (counterexample).  With no storage server registered,
`/create_file` on `"/"` returns 409 with an `IllegalState` exception —
not `{success:false}` without an error as the claim states. -/
theorem C8_counterexample :
    createFileHandler ⟨treeG, []⟩ ("/".toList) 0
      = (409, .ex .illegalState, ⟨treeG, []⟩, []) := by
  rfl

/-- Claim C8 (amended).  `/create_directory` and `/delete` on `"/"`
always return `{success:false}` with no error and leave the state
unchanged (no commands dispatched); `/create_file` on `"/"` does so
provided at least one storage server is registered — with an empty
registry it returns the `IllegalState` error before examining the
path. -/
theorem C8_root_operations (st : NamingState) (allocIdx : Nat) :
    createDirectoryHandler st ("/".toList) = (200, .success false, st) ∧
    deleteHandler st ("/".toList) = (200, .success false, st, []) ∧
    (st.storageServers ≠ [] →
      createFileHandler st ("/".toList) allocIdx
        = (200, .success false, st, [])) := by
  obtain ⟨rt, svs⟩ := st
  have hp : pathToNames ['/'] = [([] : Name)] := by decide
  refine ⟨?_, ?_, ?_⟩
  · simp [createDirectoryHandler, MakeDirectory, hp]
  · simp [deleteHandler, DeletePath, hp]
  · intro hne
    have hlen : svs.length ≠ 0 := by
      simpa [List.length_eq_zero] using hne
    simp [createFileHandler, CreateFile, hp, hlen]

/-- Claim C3.  A shared lock of a file increments `rCount` by exactly 1;
when the result reaches 20 it is reduced by 20 and, if some registered
server does not hold the file, the destination is the randomly chosen
candidate (`dstIdx`-th of the non-holders, in registry order), the source
the randomly chosen replica (`srcIdx`-th), exactly one copy command is
issued, and the destination is appended to the replica list iff the copy
succeeded — on failure the list is unchanged and nothing is retried. -/
theorem C3_shared_lock_replication (registry : List SSInfo) (f : FileT)
    (dstIdx srcIdx : Nat) (copyOk : Bool) :
    (f.rCount + 1 < 20 →
      lockHandlerReplication registry f false dstIdx srcIdx copyOk
        = (⟨f.fname, f.fpath, f.rCount + 1, f.servers⟩, [])) ∧
    (20 ≤ f.rCount + 1 →
      (lockHandlerReplication registry f false dstIdx srcIdx copyOk).1.rCount
          = f.rCount + 1 - 20 ∧
      (registry.filter (fun sv => !existsIn f.servers sv) = [] →
        lockHandlerReplication registry f false dstIdx srcIdx copyOk
          = (⟨f.fname, f.fpath, f.rCount + 1 - 20, f.servers⟩, [])) ∧
      (dstIdx < (registry.filter (fun sv => !existsIn f.servers sv)).length →
       srcIdx < f.servers.length →
        (lockHandlerReplication registry f false dstIdx srcIdx copyOk).2
            = [Cmd.copy f.fpath
                ((registry.filter (fun sv => !existsIn f.servers sv)).getD dstIdx ⟨0, 0, 0⟩)
                (f.servers.getD srcIdx ⟨0, 0, 0⟩)] ∧
        (registry.filter (fun sv => !existsIn f.servers sv)).getD dstIdx ⟨0, 0, 0⟩ ∈ registry ∧
        (registry.filter (fun sv => !existsIn f.servers sv)).getD dstIdx ⟨0, 0, 0⟩ ∉ f.servers ∧
        f.servers.getD srcIdx ⟨0, 0, 0⟩ ∈ f.servers ∧
        (lockHandlerReplication registry f false dstIdx srcIdx copyOk).1.servers
          = (if copyOk
             then f.servers ++ [(registry.filter (fun sv => !existsIn f.servers sv)).getD dstIdx ⟨0, 0, 0⟩]
             else f.servers))) := by
  constructor
  · intro hlt
    have hcond : ¬ (20 ≤ f.rCount + 1) := by omega
    simp [lockHandlerReplication, hcond]
  · intro hge
    refine ⟨?_, ?_, ?_⟩
    · by_cases hpos : 0 < (registry.filter (fun sv => !existsIn f.servers sv)).length
      · cases copyOk <;> simp [lockHandlerReplication, hge, hpos]
      · simp [lockHandlerReplication, hge, hpos]
    · intro hempty
      simp [lockHandlerReplication, hge, hempty]
    · intro h1 h2
      have hpos : 0 < (registry.filter (fun sv => !existsIn f.servers sv)).length := by
        omega
      have hgetmem : (registry.filter (fun sv => !existsIn f.servers sv)).getD dstIdx ⟨0, 0, 0⟩
          ∈ registry.filter (fun sv => !existsIn f.servers sv) := by
        rw [List.getD_eq_getElem?_getD, List.getElem?_eq_getElem h1]
        exact List.get_mem _ _ _
      have hmemR : (registry.filter (fun sv => !existsIn f.servers sv)).getD dstIdx ⟨0, 0, 0⟩
          ∈ registry := List.mem_of_mem_filter hgetmem
      have hpred := List.of_mem_filter hgetmem
      have hnotin : (registry.filter (fun sv => !existsIn f.servers sv)).getD dstIdx ⟨0, 0, 0⟩
          ∉ f.servers := by
        intro hmem
        have hx := (existsIn_iff_mem f.servers _).mpr hmem
        rw [hx] at hpred
        simp at hpred
      have hsrcmem : f.servers.getD srcIdx ⟨0, 0, 0⟩ ∈ f.servers := by
        rw [List.getD_eq_getElem?_getD, List.getElem?_eq_getElem h2]
        exact List.get_mem _ _ _
      refine ⟨?_, hmemR, hnotin, hsrcmem, ?_⟩
      · cases copyOk <;> simp [lockHandlerReplication, hge, hpos]
      · cases copyOk <;> simp [lockHandlerReplication, hge, hpos]

/-- Claim C3 (witness): a 20th shared lock on `/f` held only by `srvA`,
with `srvB` registered; the copy succeeds and `srvB` is appended. -/
theorem C3_witness :
    (lockHandlerReplication [srvA, srvB] ⟨['f'], "/f".toList, 19, [srvA]⟩ false 0 0 true).1.servers
        = [srvA, srvB] ∧
    (lockHandlerReplication [srvA, srvB] ⟨['f'], "/f".toList, 19, [srvA]⟩ false 0 0 true).2
        = [Cmd.copy ("/f".toList) srvB srvA] := by
  have h := (C3_shared_lock_replication [srvA, srvB]
    ⟨['f'], "/f".toList, 19, [srvA]⟩ 0 0 true).2 (by norm_num)
  have h2 := h.2.2 (by decide) (by decide)
  constructor
  · exact h2.2.2.2.2.trans (by decide)
  · exact h2.1.trans (by decide)

/-- Claim C5 (counterexample).  Deleting the directory `/d`, which
contains the file `/d/f` replicated only on `srvA`, dispatches delete
commands carrying the *directory* path `/d` to *every registered server*
(including `srvB`, which holds no replica); no command carrying the
contained file's path `/d/f` is sent, contradicting the claim that a
delete command is sent for every file in the subtree across that file's
replicas. -/
theorem C5_counterexample :
    (deleteHandler stDF ("/d".toList)).2.2.2
        = [Cmd.delete ("/d".toList) srvA, Cmd.delete ("/d".toList) srvB] ∧
    Cmd.delete ("/d/f".toList) srvA ∉ (deleteHandler stDF ("/d".toList)).2.2.2 ∧
    (deleteHandler stDF ("/d".toList)).2.1 = .success true := by
  decide

/-- Claim C5 (amended).  On a successful `/delete`: if the removed item
is a *file*, one delete command with the file's cached path is
dispatched per replica (all replicas); if it is a *directory*, one
delete command with the directory's path (`GetPath()`, the `"/"`-join of
the walked names) is dispatched per *registered* storage server.  In
both cases the handler returns `{success:true}` together with the full
command list it awaited (`wg.Wait()` precedes the return), so the
response is produced only after every dispatched delete completed. -/
theorem C5_delete_fanout (st : NamingState) (pth : Name) :
    (∀ f r, DeletePath st.root pth = (some (.fileItem f), none, r) →
      deleteHandler st pth
        = (200, .success true, ⟨r, st.storageServers⟩,
            f.servers.map (fun sv => Cmd.delete f.fpath sv))) ∧
    (∀ dd r, DeletePath st.root pth = (some (.dirItem dd), none, r) →
      deleteHandler st pth
        = (200, .success true, ⟨r, st.storageServers⟩,
            st.storageServers.map
              (fun sv => Cmd.delete (joinSlash (pathToNames pth)) sv))) := by
  constructor
  · intro f r h
    simp [deleteHandler, h]
  · intro dd r h
    simp [deleteHandler, h]

/-- Claim C5 (witness): deleting the file `/g` replicated on both
servers dispatches and awaits a delete of `/g` on each replica before
answering `{success:true}`. -/
theorem C5_witness :
    deleteHandler stG ("/g".toList)
      = (200, .success true, ⟨DirT.node [] [] [], [srvA, srvB]⟩,
          [Cmd.delete ("/g".toList) srvA, Cmd.delete ("/g".toList) srvB]) := by
  have h := (C5_delete_fanout stG ("/g".toList)).1
    ⟨['g'], "/g".toList, 0, [srvA, srvB]⟩ (DirT.node [] [] []) rfl
  exact h.trans rfl

/-- Full characterization of the `wUnlock` drain loop: it admits exactly
the consecutive readers at the head of the queue, in order, stopping
before the first enqueued writer. -/
theorem drainReaders_eq (q : List (Bool × Nat)) (n : Int) :
    drainReaders q n
      = (q.dropWhile Prod.fst,
         n + ((q.takeWhile Prod.fst).length : Int),
         (q.takeWhile Prod.fst).map Prod.snd) := by
  induction q generalizing n with
  | nil => simp [drainReaders]
  | cons x tl ih =>
    obtain ⟨ro, gid⟩ := x
    cases ro
    · simp [drainReaders, List.dropWhile, List.takeWhile]
    · simp [drainReaders, ih, List.dropWhile, List.takeWhile]
      omega

/-- The grants of one drain round, followed by the remaining queue,
list the drained queue's ids unchanged and in order. -/
theorem drainReaders_fifo (q : List (Bool × Nat)) (n : Int) :
    (drainReaders q n).2.2 ++ ((drainReaders q n).1.map Prod.snd)
      = q.map Prod.snd := by
  rw [drainReaders_eq]
  rw [← List.map_append, List.takeWhile_append_dropWhile]

/-- A stopped scheduler never receives an event: no state change and no
grant. -/
theorem schedulerStep_of_stopped (s : SchedState) (e : SchedEvent)
    (h : s.stopped = true) : schedulerStep s e = (s, []) := by
  simp [schedulerStep, h]

/-- Unfolding of arrival order at a processed event. -/
theorem arrivingIds_cons (e : SchedEvent) (es : List SchedEvent) :
    arrivingIds false (e :: es)
      = eventArrival e ++ arrivingIds (isQuit e) es := by
  cases e <;> cases es <;> simp [arrivingIds, eventArrival, isQuit]

/-- A running scheduler stops exactly at `quit`. -/
theorem schedulerStep_stopped (s : SchedState) (e : SchedEvent)
    (h : s.stopped = false) :
    (schedulerStep s e).1.stopped = isQuit e := by
  cases e with
  | rlock gid =>
    simp only [schedulerStep, h, Bool.false_eq_true, if_false, isQuit]
    split <;> simp [h]
  | wlock gid =>
    simp only [schedulerStep, h, Bool.false_eq_true, if_false, isQuit]
    split <;> simp [h]
  | runlock =>
    simp only [schedulerStep, h, Bool.false_eq_true, if_false, isQuit]
    split
    · split <;> simp [h]
    · simp [h]
  | wunlock =>
    simp only [schedulerStep, h, Bool.false_eq_true, if_false, isQuit]
    cases hq : s.queue with
    | nil =>
      split <;> simp [h]
    | cons x tl =>
      obtain ⟨ro, gid⟩ := x
      cases ro <;> simp [hq, h] <;> split <;> simp [h]
  | quit => simp [schedulerStep, h, isQuit]

/-- One scheduler step preserves arrival order: the ids granted by the
step followed by the ids still queued equal the previously queued ids
followed by the step's new arrival. -/
theorem schedulerStep_fifo (s : SchedState) (e : SchedEvent)
    (h : s.stopped = false) :
    (schedulerStep s e).2 ++ ((schedulerStep s e).1.queue.map Prod.snd)
      = s.queue.map Prod.snd ++ eventArrival e := by
  cases e with
  | rlock gid =>
    simp only [schedulerStep, h, eventArrival, Bool.false_eq_true, if_false]
    split
    · rename_i hc
      simp [hc.1]
    · simp
  | wlock gid =>
    simp only [schedulerStep, h, eventArrival, Bool.false_eq_true, if_false]
    split
    · rename_i hc
      simp [hc.1]
    · simp
  | runlock =>
    simp only [schedulerStep, h, eventArrival, Bool.false_eq_true, if_false]
    split
    · rename_i hc
      cases hq : s.queue with
      | nil => exact absurd hq hc.2
      | cons x rest =>
        obtain ⟨ro, gid⟩ := x
        simp [hq]
    · simp
  | wunlock =>
    simp only [schedulerStep, h, eventArrival, Bool.false_eq_true, if_false]
    cases hq : s.queue with
    | nil =>
      split
      · simp [drainReaders]
      · simp
    | cons x tl =>
      obtain ⟨ro, gid⟩ := x
      cases ro
      · simp only [Bool.false_eq_true, if_false]
        split
        · simp [drainReaders_fifo]
        · simp
      · simp only [if_true]
        split
        · simp [drainReaders_fifo]
        · simp
  | quit =>
    simp [schedulerStep, h, eventArrival]

/-- Arrival order is preserved along any run: granted ids followed by
still-queued ids equal the initially queued ids followed by all arriving
ids, in order. -/
theorem schedulerRun_fifo (evs : List SchedEvent) (s : SchedState) :
    (schedulerRun s evs).2 ++ ((schedulerRun s evs).1.queue.map Prod.snd)
      = s.queue.map Prod.snd ++ arrivingIds s.stopped evs := by
  induction evs generalizing s with
  | nil => cases h : s.stopped <;> simp [schedulerRun, arrivingIds]
  | cons e es ih =>
    by_cases hs : s.stopped = true
    · simp only [schedulerRun, schedulerStep_of_stopped s e hs,
        List.nil_append]
      have hrec := ih s
      rw [hs] at hrec
      rw [hs, hrec]
      cases es <;> simp [arrivingIds]
    · rw [Bool.not_eq_true] at hs
      rw [schedulerRun]
      have hstep := schedulerStep_fifo s e hs
      have hstop := schedulerStep_stopped s e hs
      have hrec := ih (schedulerStep s e).1
      rw [hstop] at hrec
      calc ((schedulerStep s e).2 ++ (schedulerRun (schedulerStep s e).1 es).2)
            ++ ((schedulerRun (schedulerStep s e).1 es).1.queue.map Prod.snd)
          = (schedulerStep s e).2 ++ ((schedulerRun (schedulerStep s e).1 es).2
            ++ ((schedulerRun (schedulerStep s e).1 es).1.queue.map Prod.snd)) := by
            rw [List.append_assoc]
        _ = (schedulerStep s e).2
              ++ ((schedulerStep s e).1.queue.map Prod.snd
                  ++ arrivingIds (isQuit e) es) := by rw [hrec]
        _ = ((schedulerStep s e).2 ++ ((schedulerStep s e).1.queue.map Prod.snd))
              ++ arrivingIds (isQuit e) es := by rw [List.append_assoc]
        _ = (s.queue.map Prod.snd ++ eventArrival e)
              ++ arrivingIds (isQuit e) es := by rw [hstep]
        _ = s.queue.map Prod.snd ++ arrivingIds s.stopped (e :: es) := by
            rw [hs, arrivingIds_cons, List.append_assoc]

/-- Pure list fact behind FIFO fairness: if the granted ids `g` extended
by the still-pending ids `q` equal the duplicate-free arrival list, then
any two arrivals occur in `g` in arrival order as soon as the later one
was granted. -/
theorem fifo_decomp {g q A : List Nat} {x y : Nat} {l1 l2 l3 : List Nat}
    (hA : g ++ q = A) (hd : A.Nodup) (hsplit : A = l1 ++ x :: l2 ++ y :: l3)
    (hy : y ∈ g) : ∃ g1 g2 g3, g = g1 ++ x :: g2 ++ y :: g3 := by
  have hgq : g ++ q = l1 ++ (x :: l2 ++ y :: l3) := by
    rw [hA, hsplit]
    simp
  have hnd : (g ++ q).Nodup := by rw [hA]; exact hd
  have hdisj : ∀ a, a ∈ g → a ∈ q → False := fun a h1 h2 =>
    (List.disjoint_of_nodup_append hnd) h1 h2
  rcases List.append_eq_append_iff.mp hgq with ⟨a, _, hq⟩ | ⟨c, hg, hrest⟩
  · -- the whole of g lies inside l1, so y is still pending: contradiction
    exact (hdisj y hy (by rw [hq]; simp)).elim
  · cases c with
    | nil =>
      have hq2 : q = x :: (l2 ++ y :: l3) := by simpa using hrest.symm
      exact (hdisj y hy (by rw [hq2]; simp)).elim
    | cons cx c1 =>
      have h2 : x :: (l2 ++ y :: l3) = cx :: (c1 ++ q) := by
        simpa using hrest
      obtain ⟨hx, hrest1⟩ := List.cons_eq_cons.mp h2
      have hrest2 : c1 ++ q = l2 ++ (y :: l3) := hrest1.symm
      rcases List.append_eq_append_iff.mp hrest2 with ⟨a2, _, hq2⟩ | ⟨c2, hc1, hyl3⟩
      · exact (hdisj y hy (by rw [hq2]; simp)).elim
      · cases c2 with
        | nil =>
          have hq3 : q = y :: l3 := by simpa using hyl3.symm
          exact (hdisj y hy (by rw [hq3]; simp)).elim
        | cons cy c3 =>
          have h3 : y :: l3 = cy :: (c3 ++ q) := by simpa using hyl3
          obtain ⟨hy2, _⟩ := List.cons_eq_cons.mp h3
          refine ⟨l1, l2, c3, ?_⟩
          rw [hg, hc1, ← hx, ← hy2]
          simp

/-- Claim C2.  FIFO admission of the scheduler: (1) along any event
trace the granted ids followed by the still-queued ids equal the arrival
order; (2) hence for two requests R1 (id `x`) arriving before R2 (id
`y`), of either mode, if R2 has been granted then R1 was granted before
it; (3) on a writer release the head of the queue is admitted — alone if
it is a writer, together with all consecutive readers at the head of the
queue (stopping before the first enqueued writer) if it is a reader; (4)
on the last reader's release with a non-empty queue the head waiter is
admitted. -/
theorem C2_fifo_admission :
    (∀ evs : List SchedEvent,
      (schedulerRun initSched evs).2
          ++ ((schedulerRun initSched evs).1.queue.map Prod.snd)
        = arrivingIds false evs) ∧
    (∀ (evs : List SchedEvent) (x y : Nat) (l1 l2 l3 : List Nat),
      (arrivingIds false evs).Nodup →
      arrivingIds false evs = l1 ++ x :: l2 ++ y :: l3 →
      y ∈ (schedulerRun initSched evs).2 →
      ∃ g1 g2 g3, (schedulerRun initSched evs).2 = g1 ++ x :: g2 ++ y :: g3) ∧
    (∀ s : SchedState, s.stopped = false → s.writing = true → s.nReading = 0 →
      (schedulerStep s .wunlock).2
        = match s.queue with
          | [] => []
          | (ro, gid) :: rest =>
            if ro then gid :: ((rest.takeWhile Prod.fst).map Prod.snd)
            else [gid]) ∧
    (∀ s : SchedState, s.stopped = false → s.nReading = 1 → s.queue ≠ [] →
      (schedulerStep s .runlock).2 = [(s.queue.headD (false, 0)).2]) := by
  refine ⟨?_, ?_, ?_, ?_⟩
  · intro evs
    have := schedulerRun_fifo evs initSched
    simpa [initSched] using this
  · intro evs x y l1 l2 l3 hnd hsplit hy
    have hA : (schedulerRun initSched evs).2
        ++ ((schedulerRun initSched evs).1.queue.map Prod.snd)
        = arrivingIds false evs := by
      have := schedulerRun_fifo evs initSched
      simpa [initSched] using this
    exact fifo_decomp hA hnd hsplit hy
  · intro s hs hw hr
    simp only [schedulerStep, hs, Bool.false_eq_true, if_false]
    cases hq : s.queue with
    | nil => simp [hr]
    | cons x tl =>
      obtain ⟨ro, gid⟩ := x
      cases ro
      · simp [hr]
      · simp [hr, drainReaders_eq]
  · intro s hs hr hq
    simp only [schedulerStep, hs, Bool.false_eq_true, if_false]
    cases hqq : s.queue with
    | nil => exact absurd hqq hq
    | cons x tl =>
      obtain ⟨ro, gid⟩ := x
      simp [hr, hqq]

/-- Claim C2 (witness): reader 1 holds the lock, writer 2 then reader 3
queue behind it; on the reader's release the writer (earlier arrival) is
granted before the later reader, and the drain equations at concrete
states. -/
theorem C2_witness :
    (∃ g1 g2 g3, (schedulerRun initSched
        [.rlock 1, .wlock 2, .rlock 3, .runlock]).2
      = g1 ++ 1 :: g2 ++ 2 :: g3) ∧
    (schedulerStep ⟨[(true, 4), (true, 5), (false, 6)], 0, true, false⟩ .wunlock).2
      = [4, 5] ∧
    (schedulerStep ⟨[(false, 7)], 1, false, false⟩ .runlock).2 = [7] := by
  have h := C2_fifo_admission
  refine ⟨?_, ?_, ?_⟩
  · exact h.2.1 [.rlock 1, .wlock 2, .rlock 3, .runlock] 1 2 [] [] [3]
      (by decide) (by decide) (by decide)
  · exact (h.2.2.1 ⟨[(true, 4), (true, 5), (false, 6)], 0, true, false⟩
      rfl rfl rfl).trans (by decide)
  · exact (h.2.2.2 ⟨[(false, 7)], 1, false, false⟩ rfl rfl (by decide)).trans
      (by decide)

/-- A stopped scheduler ignores a whole trace. -/
theorem schedulerRun_of_stopped (s : SchedState) (evs : List SchedEvent)
    (h : s.stopped = true) : schedulerRun s evs = (s, []) := by
  induction evs with
  | nil => rfl
  | cons e es ih =>
    rw [schedulerRun, schedulerStep_of_stopped s e h, ih]
    simp

/-- Runs compose over trace concatenation. -/
theorem schedulerRun_append (s : SchedState) (a b : List SchedEvent) :
    schedulerRun s (a ++ b)
      = ((schedulerRun (schedulerRun s a).1 b).1,
         (schedulerRun s a).2 ++ (schedulerRun (schedulerRun s a).1 b).2) := by
  induction a generalizing s with
  | nil => simp [schedulerRun]
  | cons e es ih =>
    simp only [List.cons_append, schedulerRun, List.append_eq]
    rw [ih]
    simp [List.append_assoc]

/-- Processing `quit` always leaves the scheduler stopped. -/
theorem schedulerStep_quit_stopped (s : SchedState) :
    (schedulerStep s .quit).1.stopped = true := by
  by_cases h : s.stopped = true
  · rw [schedulerStep_of_stopped s _ h]
    exact h
  · rw [Bool.not_eq_true] at h
    rw [schedulerStep_stopped s _ h]
    rfl

/-- Claim C4 (counterexample).  After `Destroy()` (the `quit` event) a
subsequent `RLock()` is never granted and receives no `Destroyed` error
— the caller blocks, since the scheduler loop has exited; a waiter
queued at the moment of destruction (id 1, queued behind writer 0) is
never notified, even by further events. -/
theorem C4_counterexample :
    lockOutcome [.quit, .rlock 1] 1 = .blocked ∧
    lockOutcome [.quit, .rlock 1] 1 ≠ .destroyedErr ∧
    (schedulerRun initSched [.wlock 0, .rlock 1, .quit]).2 = [0] ∧
    (1 : Nat) ∉ (schedulerRun initSched [.wlock 0, .rlock 1, .quit, .wunlock]).2 := by
  decide

/-- Claim C4 (amended).  Once the scheduler is stopped it processes
nothing: any trace from a stopped state changes nothing and grants
nothing (so a post-`Destroy` `RLock()` blocks forever instead of
failing with `Destroyed`, and waiters queued at destruction are never
notified); and a run is entirely insensitive to the events after the
first `quit` (in particular a second `Destroy()` has no effect on the
scheduler state — though its caller, too, blocks forever since the quit
channel is no longer read). -/
theorem C4_destroy_behavior :
    (∀ (s : SchedState) (evs : List SchedEvent), s.stopped = true →
      schedulerRun s evs = (s, [])) ∧
    (∀ evs1 evs2 : List SchedEvent,
      schedulerRun initSched (evs1 ++ .quit :: evs2)
        = schedulerRun initSched (evs1 ++ [.quit])) := by
  constructor
  · exact schedulerRun_of_stopped
  · intro evs1 evs2
    have hsplit : evs1 ++ .quit :: evs2 = (evs1 ++ [.quit]) ++ evs2 := by
      simp
    rw [hsplit, schedulerRun_append]
    have hstop : (schedulerRun initSched (evs1 ++ [.quit])).1.stopped = true := by
      rw [schedulerRun_append]
      simp only [schedulerRun]
      exact schedulerStep_quit_stopped _
    rw [schedulerRun_of_stopped _ evs2 hstop]
    simp

/-- Claim C4 (witness): a stopped scheduler ignores an `RLock`, and a
trace is insensitive to what follows `quit`. -/
theorem C4_witness :
    schedulerRun ⟨[], 0, false, true⟩ [.rlock 7] = (⟨[], 0, false, true⟩, []) ∧
    schedulerRun initSched ([.wlock 0] ++ .quit :: [.rlock 1])
      = schedulerRun initSched ([.wlock 0] ++ [.quit]) := by
  have h := C4_destroy_behavior
  exact ⟨h.1 ⟨[], 0, false, true⟩ [.rlock 7] rfl, h.2 [.wlock 0] [.rlock 1]⟩

/-- `RegisterFiles` returns one boolean per input path. -/
theorem RegisterFiles_length (d : DirT) (ps : List Name) (sv : SSInfo) :
    (RegisterFiles d ps sv).2.length = ps.length := by
  induction ps generalizing d with
  | nil => rfl
  | cons p ps ih => simp [RegisterFiles, ih]

/-- The response loop of `registerStorageHandler` collects exactly the
input paths whose `RegisterFiles` entry is `false`, in input order. -/
theorem collectFailed_eq_zip (ps : List Name) (bs : List Bool) :
    collectFailed ps bs
      = ((ps.zip bs).filter (fun pb => !pb.2)).map Prod.fst := by
  induction ps generalizing bs with
  | nil => cases bs <;> rfl
  | cons p ps ih =>
    cases bs with
    | nil => rfl
    | cons b bs => cases b <;> simp [collectFailed, ih]

/-- Claim C6.  `/register` returns 409 with `IllegalState` iff some
already-registered server matches the request on both `client_port` and
`command_port` (in which case nothing changes); otherwise the new server
record is appended to the registry and the response lists exactly those
input paths whose `RegisterFiles` entry was `false`, in input order. -/
theorem C6_register_storage (st : NamingState) (cp cmdp : Int)
    (files : List Name) (newId : Nat) :
    ((registerStorageHandler st cp cmdp files newId).1 = 409 ∧
     (registerStorageHandler st cp cmdp files newId).2.1 = .ex .illegalState ∧
     (registerStorageHandler st cp cmdp files newId).2.2 = st
       ↔ ∃ sv ∈ st.storageServers, sv.clientPort = cp ∧ sv.commandPort = cmdp) ∧
    ((¬ ∃ sv ∈ st.storageServers, sv.clientPort = cp ∧ sv.commandPort = cmdp) →
      (registerStorageHandler st cp cmdp files newId).1 = 200 ∧
      (registerStorageHandler st cp cmdp files newId).2.2.storageServers
        = st.storageServers ++ [⟨newId, cp, cmdp⟩] ∧
      (registerStorageHandler st cp cmdp files newId).2.2.root
        = (RegisterFiles st.root files ⟨newId, cp, cmdp⟩).1 ∧
      (registerStorageHandler st cp cmdp files newId).2.1
        = .files (((files.zip (RegisterFiles st.root files ⟨newId, cp, cmdp⟩).2).filter
            (fun pb => !pb.2)).map Prod.fst) ∧
      (RegisterFiles st.root files ⟨newId, cp, cmdp⟩).2.length = files.length) := by
  have hany : (st.storageServers.any
        (fun sv => sv.clientPort == cp && sv.commandPort == cmdp)) = true
      ↔ ∃ sv ∈ st.storageServers, sv.clientPort = cp ∧ sv.commandPort = cmdp := by
    simp [List.any_eq_true]
  by_cases hc : ∃ sv ∈ st.storageServers, sv.clientPort = cp ∧ sv.commandPort = cmdp
  · have hb := hany.mpr hc
    constructor
    · simp [registerStorageHandler, hb, hc]
    · intro hnc
      exact absurd hc hnc
  · have hb : (st.storageServers.any
        (fun sv => sv.clientPort == cp && sv.commandPort == cmdp)) = false := by
      rw [Bool.eq_false_iff]
      intro h
      exact hc (hany.mp h)
    constructor
    · have h200 : (registerStorageHandler st cp cmdp files newId).1 = 200 := by
        simp [registerStorageHandler, hb]
      constructor
      · intro h
        rw [h200] at h
        exact absurd h.1 (by norm_num)
      · intro h
        exact absurd h hc
    · intro _
      refine ⟨?_, ?_, ?_, ?_, RegisterFiles_length _ _ _⟩
      · simp [registerStorageHandler, hb]
      · simp [registerStorageHandler, hb]
      · simp [registerStorageHandler, hb]
      · simp [registerStorageHandler, hb, collectFailed_eq_zip]

/-- Claim C6 (witness): `srvA` (ports 101/102) is registered; a request
with fresh ports 301/302 and files `["/g", "/x"]` against `stG` (where
`/g` exists) is accepted, appended, and told to delete `/g` only. -/
theorem C6_witness :
    (registerStorageHandler stG 301 302 ["/g".toList, "/x".toList] 7).1 = 200 ∧
    (registerStorageHandler stG 301 302 ["/g".toList, "/x".toList] 7).2.2.storageServers
      = [srvA, srvB, ⟨7, 301, 302⟩] ∧
    (registerStorageHandler stG 301 302 ["/g".toList, "/x".toList] 7).2.1
      = .files ["/g".toList] := by
  have h := (C6_register_storage stG 301 302 ["/g".toList, "/x".toList] 7).2
    (by decide)
  refine ⟨h.1, ?_, ?_⟩
  · exact h.2.1.trans (by decide)
  · exact h.2.2.2.1.trans (by decide)

/-- `strings.Split` never returns an empty slice. -/
theorem splitSlashF_ne_nil (fuel : Nat) (l : Name) : splitSlashF fuel l ≠ [] := by
  cases fuel with
  | zero => simp [splitSlashF]
  | succ n =>
    simp only [splitSlashF]
    split <;> simp

/-- Claim C9 (counterexample).  `pathToNames` resolves `".."` as a
parent-directory reference: `"/a/../b"` canonicalizes to the same name
list as `"/b"` (so it is resolved to the node `/b`), and a path
traversing above root (`"/../a"`) is clamped to `"/a"` rather than
rejected with `IllegalArgument`. -/
theorem C9_counterexample :
    pathToNames ("/a/../b".toList) = [([] : Name), ['b']] ∧
    pathToNames ("/a/../b".toList) = pathToNames ("/b".toList) ∧
    pathToNames ("/../a".toList) = [([] : Name), ['a']] := by
  decide

/-- Claim C9 (amended).  Every path is first canonicalized with Go
`path.Clean` (collapsing redundant separators and `"."`); a path is
rejected — `pathToNames` returns the empty list, which the operations
(here `MakeDirectory`) turn into `IllegalArgument` — exactly when the
cleaned path does not start with `'/'` (empty and relative paths).
`".."` segments, however, are *resolved* as parent-directory references
by `path.Clean`, and `".."` above the root is clamped to the root rather
than rejected. -/
theorem C9_path_canonicalization :
    (∀ p : Name, pathToNames p = [] ↔ ¬ (goClean p).head? = some '/') ∧
    (∀ (d : DirT) (p : Name),
      (MakeDirectory d p).2.1 = some .illegalArgument ↔ pathToNames p = []) ∧
    pathToNames ("".toList) = [] ∧
    pathToNames ("a/b".toList) = [] ∧
    pathToNames ("//a/./b".toList) = pathToNames ("/a/b".toList) ∧
    pathToNames ("/a/../b".toList) = pathToNames ("/b".toList) ∧
    pathToNames ("/../a".toList) = pathToNames ("/a".toList) := by
  refine ⟨?_, ?_, by decide, by decide, by decide, by decide, by decide⟩
  · intro p
    cases hg : goClean p with
    | nil => simp [pathToNames, hg]
    | cons ch rest =>
      by_cases hch : ch = '/'
      · subst hch
        by_cases hr : (('/' :: rest : Name)) = ['/']
        · simp [pathToNames, hg, hr]
        · simp [pathToNames, hg, hr, splitSlash, splitSlashF_ne_nil]
      · simp [pathToNames, hg, hch]
  · intro d p
    constructor
    · intro h
      by_cases hnil : pathToNames p = []
      · exact hnil
      · exfalso
        simp only [MakeDirectory, if_neg hnil] at h
        split at h
        · simp at h
        · split at h
          · simp at h
          · split at h <;> simp at h
    · intro hnil
      simp [MakeDirectory, hnil]

/-- Projection of `DirT.node`. -/
@[simp] theorem dname_node (n : Name) (ds : List DirT) (fs : List FileT) :
    (DirT.node n ds fs).dname = n := rfl

/-- Projection of `DirT.node`. -/
@[simp] theorem subDirs_node (n : Name) (ds : List DirT) (fs : List FileT) :
    (DirT.node n ds fs).subDirs = ds := rfl

/-- Projection of `DirT.node`. -/
@[simp] theorem subFiles_node (n : Name) (ds : List DirT) (fs : List FileT) :
    (DirT.node n ds fs).subFiles = fs := rfl

/-- A found directory carries the looked-up name. -/
theorem findDir_name (l : List DirT) (m : Name) (c : DirT)
    (h : findDir l m = some c) : c.dname = m := by
  induction l with
  | nil => simp [findDir] at h
  | cons d ds ih =>
    by_cases hd : d.dname = m
    · rw [findDir, if_pos hd] at h
      injection h with h2
      rw [← h2]
      exact hd
    · rw [findDir, if_neg hd] at h
      exact ih h

/-- Appending the file named `fn` makes it findable. -/
theorem findFile_append_self (l : List FileT) (fn fp : Name) (sv : SSInfo) :
    (findFile (l ++ [⟨fn, fp, 0, [sv]⟩]) fn).isSome = true := by
  induction l with
  | nil => simp [findFile]
  | cons f fs ih =>
    by_cases hf : f.fname = fn
    · rw [List.cons_append, findFile, if_pos hf]
      rfl
    · rw [List.cons_append, findFile, if_neg hf]
      exact ih

/-- A findable file stays findable after appending more files. -/
theorem findFile_append_isSome (l l2 : List FileT) (fn : Name)
    (h : (findFile l fn).isSome = true) :
    (findFile (l ++ l2) fn).isSome = true := by
  induction l with
  | nil =>
    rw [findFile] at h
    simp at h
  | cons f fs ih =>
    by_cases hf : f.fname = fn
    · rw [List.cons_append, findFile, if_pos hf]
      rfl
    · rw [findFile, if_neg hf] at h
      rw [List.cons_append, findFile, if_neg hf]
      exact ih h

/-- Replacing the found directory (by one with the same name) is visible
to a later lookup of that name. -/
theorem findDir_setFirst_self (l : List DirT) (n : Name) (x c : DirT)
    (hx : x.dname = n) (h : findDir l n = some c) :
    findDir (setFirstDir l n x) n = some x := by
  induction l with
  | nil => simp [findDir] at h
  | cons d ds ih =>
    by_cases hd : d.dname = n
    · rw [setFirstDir, if_pos hd, findDir, if_pos hx]
    · rw [setFirstDir, if_neg hd, findDir, if_neg hd]
      rw [findDir, if_neg hd] at h
      exact ih h

/-- Replacing the first directory named `n` by one still named `n` does
not change lookups of other names. -/
theorem findDir_setFirst_ne (l : List DirT) (n m : Name) (x : DirT)
    (hx : x.dname = n) (hnm : m ≠ n) :
    findDir (setFirstDir l n x) m = findDir l m := by
  induction l with
  | nil => rw [setFirstDir]
  | cons d ds ih =>
    by_cases hd : d.dname = n
    · have hxm : ¬ x.dname = m := by
        rw [hx]
        exact fun hh => hnm hh.symm
      have hdm : ¬ d.dname = m := by
        rw [hd]
        exact fun hh => hnm hh.symm
      rw [setFirstDir, if_pos hd, findDir, if_neg hxm, findDir, if_neg hdm]
    · by_cases hdm : d.dname = m
      · rw [setFirstDir, if_neg hd, findDir, if_pos hdm, findDir, if_pos hdm]
      · rw [setFirstDir, if_neg hd, findDir, if_neg hdm, findDir, if_neg hdm]
        exact ih

/-- A found directory is still found after appending directories. -/
theorem findDir_append_left (l l2 : List DirT) (m : Name) (c : DirT)
    (h : findDir l m = some c) :
    findDir (l ++ l2) m = some c := by
  induction l with
  | nil =>
    rw [findDir] at h
    simp at h
  | cons d ds ih =>
    by_cases hd : d.dname = m
    · rw [findDir, if_pos hd] at h
      rw [List.cons_append, findDir, if_pos hd]
      exact h
    · rw [findDir, if_neg hd] at h
      rw [List.cons_append, findDir, if_neg hd]
      exact ih h

/-- Appending a directory named `m` where none existed makes it the
lookup result. -/
theorem findDir_append_new (l : List DirT) (m : Name) (x : DirT)
    (h : findDir l m = none) (hx : x.dname = m) :
    findDir (l ++ [x]) m = some x := by
  induction l with
  | nil => simp [findDir, hx]
  | cons d ds ih =>
    by_cases hd : d.dname = m
    · rw [findDir, if_pos hd] at h
      simp at h
    · rw [findDir, if_neg hd] at h
      rw [List.cons_append, findDir, if_neg hd]
      exact ih h

/-- `ensureAndAdd` keeps the directory's own name. -/
theorem ensureAndAdd_dname (d : DirT) (mids : List Name) (fn fp : Name)
    (sv : SSInfo) : (ensureAndAdd d mids fn fp sv).1.dname = d.dname := by
  cases mids with
  | nil =>
    rw [ensureAndAdd]
    split <;> simp
  | cons m rest =>
    rw [ensureAndAdd]
    cases findDir d.subDirs m with
    | some c => simp
    | none =>
      simp only []
      split <;> simp

/-- `ensureAndAdd` never removes files from the directory it returns. -/
theorem ensureAndAdd_files_mono (d : DirT) (mids : List Name)
    (fn fp n : Name) (sv : SSInfo)
    (h : (findFile d.subFiles n).isSome = true) :
    (findFile (ensureAndAdd d mids fn fp sv).1.subFiles n).isSome = true := by
  cases mids with
  | nil =>
    rw [ensureAndAdd]
    split
    · exact h
    · simp only [subFiles_node]
      exact findFile_append_isSome _ _ _ h
  | cons m rest =>
    rw [ensureAndAdd]
    cases findDir d.subDirs m with
    | some c => exact h
    | none =>
      simp only []
      split
      · exact h
      · simp only [subFiles_node]
        exact h

/-- A successful `ensureAndAdd` leaves the registered file reachable at
its path. -/
theorem ensure_true_fileAt (mids : List Name) (d : DirT) (fn fp : Name)
    (sv : SSInfo) (h : (ensureAndAdd d mids fn fp sv).2 = true) :
    fileAtB (ensureAndAdd d mids fn fp sv).1 mids fn = true := by
  induction mids generalizing d with
  | nil =>
    rw [ensureAndAdd] at h ⊢
    by_cases hc : ((findDir d.subDirs fn).isSome || (findFile d.subFiles fn).isSome) = true
    · rw [if_pos hc] at h
      simp at h
    · rw [if_neg hc]
      simp only [fileAtB, subFiles_node]
      exact findFile_append_self _ _ _ _
  | cons m rest ih =>
    rw [ensureAndAdd] at h ⊢
    cases hfd : findDir d.subDirs m with
    | some c =>
      rw [hfd] at h
      dsimp only at h ⊢
      simp only [fileAtB, subDirs_node]
      have hcn := findDir_name d.subDirs m c hfd
      have hxn : (ensureAndAdd c rest fn fp sv).1.dname = m := by
        rw [ensureAndAdd_dname]
        exact hcn
      rw [findDir_setFirst_self d.subDirs m _ c hxn hfd]
      exact ih c h
    | none =>
      rw [hfd] at h
      dsimp only at h ⊢
      by_cases hnf : (findFile d.subFiles m).isSome = true
      · rw [if_pos hnf] at h
        simp at h
      · rw [if_neg hnf] at h ⊢
        simp only [fileAtB, subDirs_node]
        have hname : (ensureAndAdd (DirT.node m [] []) rest fn fp sv).1.dname = m := by
          rw [ensureAndAdd_dname]
          rfl
        rw [findDir_append_new d.subDirs m _ hfd hname]
        exact ih _ h

/-- Registering a path where a file is already reachable fails. -/
theorem fileAt_ensure_false (mids : List Name) (d : DirT) (fn fp : Name)
    (sv : SSInfo) (h : fileAtB d mids fn = true) :
    (ensureAndAdd d mids fn fp sv).2 = false := by
  induction mids generalizing d with
  | nil =>
    rw [fileAtB] at h
    rw [ensureAndAdd]
    have hc : ((findDir d.subDirs fn).isSome || (findFile d.subFiles fn).isSome) = true := by
      rw [Bool.or_eq_true]
      exact Or.inr h
    rw [if_pos hc]
  | cons m rest ih =>
    rw [fileAtB] at h
    rw [ensureAndAdd]
    cases hfd : findDir d.subDirs m with
    | some c =>
      rw [hfd] at h
      dsimp only at h ⊢
      exact ih c h
    | none =>
      rw [hfd] at h
      simp at h

/-- Reachability of a file is preserved by any later `ensureAndAdd`
(the registration walk only ever adds directories and files). -/
theorem fileAt_ensure_persist (mids : List Name) (d : DirT) (fn : Name)
    (qmids : List Name) (qfn qfp : Name) (sv : SSInfo)
    (h : fileAtB d mids fn = true) :
    fileAtB (ensureAndAdd d qmids qfn qfp sv).1 mids fn = true := by
  induction mids generalizing d qmids with
  | nil =>
    rw [fileAtB] at h ⊢
    exact ensureAndAdd_files_mono d qmids qfn qfp fn sv h
  | cons m rest ih =>
    rw [fileAtB] at h
    cases hfd : findDir d.subDirs m with
    | none =>
      rw [hfd] at h
      simp at h
    | some c =>
      rw [hfd] at h
      dsimp only at h
      cases qmids with
      | nil =>
        rw [ensureAndAdd]
        split
        · rw [fileAtB, hfd]
          exact h
        · rw [fileAtB, subDirs_node, hfd]
          exact h
      | cons q0 qrest =>
        rw [ensureAndAdd]
        cases hfq : findDir d.subDirs q0 with
        | some c0 =>
          dsimp only
          by_cases hmq : m = q0
          · subst hmq
            rw [hfd] at hfq
            injection hfq with hcc
            subst hcc
            have hxn : (ensureAndAdd c qrest qfn qfp sv).1.dname = m := by
              rw [ensureAndAdd_dname]
              exact findDir_name d.subDirs m c hfd
            rw [fileAtB, subDirs_node,
              findDir_setFirst_self d.subDirs m _ c hxn hfd]
            exact ih c qrest h
          · have hxn : (ensureAndAdd c0 qrest qfn qfp sv).1.dname = q0 := by
              rw [ensureAndAdd_dname]
              exact findDir_name d.subDirs q0 c0 hfq
            rw [fileAtB, subDirs_node,
              findDir_setFirst_ne d.subDirs q0 m _ hxn hmq, hfd]
            exact h
        | none =>
          dsimp only
          split
          · rw [fileAtB, hfd]
            exact h
          · rw [fileAtB, subDirs_node,
              findDir_append_left d.subDirs _ m c hfd]
            exact h

/-- Reachability of a file is preserved by processing any further
`RegisterFiles` entry. -/
theorem fileAt_registerOne_persist (d : DirT) (p : Name) (sv : SSInfo)
    (mids : List Name) (fn : Name) (h : fileAtB d mids fn = true) :
    fileAtB (registerOne d p sv).1 mids fn = true := by
  simp only [registerOne]
  split
  · exact h
  · split
    · exact h
    · exact fileAt_ensure_persist mids d fn _ _ _ sv h

/-- A successful non-root `registerOne` makes the file reachable. -/
theorem registerOne_true_fileAt (d : DirT) (p : Name) (sv : SSInfo)
    (hlen : 2 ≤ (pathToNames p).length)
    (h : (registerOne d p sv).2 = true) :
    fileAtB (registerOne d p sv).1 (pathMids p) (pathFile p) = true := by
  have hne : ¬ pathToNames p = [] := by
    intro h0
    rw [h0] at hlen
    simp at hlen
  have hlen1 : ¬ (pathToNames p).length = 1 := by omega
  simp only [registerOne, if_neg hne, if_neg hlen1] at h ⊢
  exact ensure_true_fileAt _ _ _ _ _ h

/-- Once a non-root path's file is reachable, every later occurrence of
that path in the same `RegisterFiles` call reports `false`. -/
theorem RegisterFiles_blocked (ps : List Name) (d : DirT) (sv : SSInfo)
    (k : Nat) (p : Name) (hlen : 2 ≤ (pathToNames p).length)
    (hk : ps.get? k = some p)
    (hblocked : fileAtB d (pathMids p) (pathFile p) = true) :
    (RegisterFiles d ps sv).2.get? k = some false := by
  induction ps generalizing d k with
  | nil => simp at hk
  | cons q ps ih =>
    cases k with
    | zero =>
      have hq : q = p := by simpa using hk
      subst hq
      have hne : ¬ pathToNames q = [] := by
        intro h0
        rw [h0] at hlen
        simp at hlen
      have hlen1 : ¬ (pathToNames q).length = 1 := by omega
      have hfalse : (registerOne d q sv).2 = false := by
        simp only [registerOne, if_neg hne, if_neg hlen1]
        exact fileAt_ensure_false _ _ _ _ _ hblocked
      simp [RegisterFiles, hfalse]
    | succ k' =>
      have hpersist := fileAt_registerOne_persist d q sv _ _ hblocked
      have hk' : ps.get? k' = some p := by simpa using hk
      have := ih (registerOne d q sv).1 k' hk' hpersist
      simpa [RegisterFiles] using this

/-- A path whose entry is `false` lands in the handler's delete list. -/
theorem mem_collectFailed (ps : List Name) (bs : List Bool) (j : Nat)
    (p : Name) (hp : ps.get? j = some p) (hb : bs.get? j = some false) :
    p ∈ collectFailed ps bs := by
  induction ps generalizing bs j with
  | nil => simp at hp
  | cons q ps ih =>
    cases bs with
    | nil => simp at hb
    | cons b bs =>
      cases j with
      | zero =>
        have hq : q = p := by simpa using hp
        have hbf : b = false := by simpa using hb
        subst hq
        subst hbf
        simp [collectFailed]
      | succ j' =>
        have hp' : ps.get? j' = some p := by simpa using hp
        have hb' : bs.get? j' = some false := by simpa using hb
        cases b with
        | true => simpa [collectFailed] using ih bs j' hp' hb'
        | false =>
          simp only [collectFailed]
          exact List.mem_cons_of_mem _ (ih bs j' hp' hb')

/-- Duplicate occurrences of a path: once an earlier occurrence
succeeded, every later occurrence reports `false`. -/
theorem RegisterFiles_dup_false (ps : List Name) (d : DirT) (sv : SSInfo)
    (i j : Nat) (p : Name) (hij : i < j)
    (hi : ps.get? i = some p) (hj : ps.get? j = some p)
    (hlen : 2 ≤ (pathToNames p).length)
    (hsucc : (RegisterFiles d ps sv).2.get? i = some true) :
    (RegisterFiles d ps sv).2.get? j = some false := by
  induction ps generalizing d i j with
  | nil => simp at hi
  | cons q ps ih =>
    obtain ⟨j', rfl⟩ : ∃ j', j = j' + 1 := ⟨j - 1, by omega⟩
    cases i with
    | zero =>
      have hq : q = p := by simpa using hi
      subst hq
      have hr1 : (registerOne d q sv).2 = true := by
        simpa [RegisterFiles] using hsucc
      have hfa := registerOne_true_fileAt d q sv hlen hr1
      have hj' : ps.get? j' = some q := by simpa using hj
      have := RegisterFiles_blocked ps (registerOne d q sv).1 sv j' q hlen hj' hfa
      simpa [RegisterFiles] using this
    | succ i' =>
      have hi' : ps.get? i' = some p := by simpa using hi
      have hj' : ps.get? j' = some p := by simpa using hj
      have hs' : (RegisterFiles (registerOne d q sv).1 ps sv).2.get? i' = some true := by
        simpa [RegisterFiles] using hsucc
      have := ih (registerOne d q sv).1 i' j' (by omega) hi' hj' hs'
      simpa [RegisterFiles] using this

/-- Claim C10 (counterexample).  Against a tree that already contains
the file `/x` (registered earlier by another server), a duplicate list
`["/x", "/x"]` yields `[false, false]`: the *first* occurrence does not
return `true`, contradicting the claim's unconditional "the first
occurrence returns true". -/
theorem C10_counterexample :
    (RegisterFiles
        (RegisterFiles (DirT.node [] [] []) ["/x".toList] srvA).1
        ["/x".toList, "/x".toList] srvB).2 = [false, false] ∧
    (RegisterFiles
        (RegisterFiles (DirT.node [] [] []) ["/x".toList] srvA).1
        ["/x".toList, "/x".toList] srvB).2.get? 0 ≠ some true := by
  decide

/-- Claim C10 (amended).  `RegisterFiles` returns one boolean per input
path, in input order, processing entries left to right against the
partially updated tree; for a valid non-root file path occurring at
positions `i < j`, *if the occurrence at `i` succeeded*, then the
occurrence at `j` reports `false`, and the path is then listed in the
`/register` response's delete list — so the storage server is told to
delete its only local copy of a file the naming server has just mapped
to that same server.  (Unconditionally, the first occurrence need not
succeed: a pre-existing conflict also makes it `false`.) -/
theorem C10_register_duplicate_paths (d : DirT) (ps : List Name)
    (sv : SSInfo) (i j : Nat) (p : Name) (hij : i < j)
    (hi : ps.get? i = some p) (hj : ps.get? j = some p)
    (hlen : 2 ≤ (pathToNames p).length)
    (hsucc : (RegisterFiles d ps sv).2.get? i = some true) :
    (RegisterFiles d ps sv).2.length = ps.length ∧
    (RegisterFiles d ps sv).2.get? j = some false ∧
    p ∈ collectFailed ps (RegisterFiles d ps sv).2 := by
  have hfalse := RegisterFiles_dup_false ps d sv i j p hij hi hj hlen hsucc
  exact ⟨RegisterFiles_length d ps sv, hfalse,
    mem_collectFailed ps _ j p hj hfalse⟩

/-- Claim C10 (witness): registering `["/x", "/x"]` on an empty tree —
the first occurrence succeeds, the duplicate is refused and `/x` is put
on the delete list sent back to the very server now holding it. -/
theorem C10_witness :
    (RegisterFiles (DirT.node [] [] []) ["/x".toList, "/x".toList] srvA).2.length = 2 ∧
    (RegisterFiles (DirT.node [] [] []) ["/x".toList, "/x".toList] srvA).2.get? 1
        = some false ∧
    "/x".toList ∈ collectFailed ["/x".toList, "/x".toList]
        (RegisterFiles (DirT.node [] [] []) ["/x".toList, "/x".toList] srvA).2 := by
  have h := C10_register_duplicate_paths (DirT.node [] [] [])
    ["/x".toList, "/x".toList] srvA 0 1 ("/x".toList) (by omega)
    (by decide) (by decide) (by decide) (by decide)
  exact ⟨h.1.trans (by decide), h.2.1, h.2.2⟩

/-- Claim C8 (witness): the amended statement at a concrete state with a
non-empty registry. -/
theorem C8_witness :
    createDirectoryHandler stG ("/".toList) = (200, .success false, stG) ∧
    deleteHandler stG ("/".toList) = (200, .success false, stG, []) ∧
    createFileHandler stG ("/".toList) 0 = (200, .success false, stG, []) := by
  have h := C8_root_operations stG 0
  exact ⟨h.1, h.2.1, h.2.2 (by simp [stG])⟩

end DFS
